import Mathlib

/-!
Verification of the KOL sentiment-tracking repository.

Shallow embedding conventions:
- Python floats are modelled as rationals, except where a square root is
  inherently involved (the volatility pipeline), which is modelled over the
  reals, and where an IEEE division by zero can occur (the return
  computation on numpy float64 scalars), which uses an explicit float
  value type with signed infinities and NaN.
- A pandas price DataFrame is modelled by the list of its Close column
  values in ascending date order; an absent DataFrame is Option.none.
- A Python value that may be None is an Option.
- External collaborators (the network feed, the filesystem clock) are
  modelled as explicit oracle arguments.
-/

/- String constants for the sentiment labels used by the source. -/

def sentPositive : String := "positive"

def sentNegative : String := "negative"

def sentNeutral : String := "neutral"

/-- Model of the Python str.lower call on the sentiment label: an ASCII
case fold over the character sequence. -/
def pyLower (s : String) : String := ⟨s.data.map Char.toLower⟩

/-- Embedding of kol_accuracy.is_direction_correct (identical copy in
kol_performance_metrics.is_direction_correct): 1 when the sentiment call
matches the realized return direction, 0 otherwise.  The 0.01 deadband of
the source is the rational 1/100. -/
def is_direction_correct (sentiment : String) (ret : ℚ) : ℕ :=
  if pyLower sentiment = sentPositive ∧ 0 < ret then 1
  else if pyLower sentiment = sentNegative ∧ ret < 0 then 1
  else if pyLower sentiment = sentNeutral ∧ |ret| < 1/100 then 1
  else 0

/-- A numpy float64 value as the return computation can produce it: a
finite value, a signed infinity, or NaN. -/
inductive PyFloat where
  | fin : ℚ → PyFloat
  | pinf : PyFloat
  | ninf : PyFloat
  | nan : PyFloat
deriving DecidableEq

/-- Division as numpy float64 scalars perform it (IEEE 754): a zero
divisor yields a signed infinity — or NaN for 0/0 — with only a
RuntimeWarning, never an exception; a nonzero divisor yields the finite
quotient. -/
def pyDiv (a b : ℚ) : PyFloat :=
  if b = 0 then
    if 0 < a then .pinf else if a < 0 then .ninf else .nan
  else .fin (a / b)

/-- Embedding of KOLSentimentDB.calculate_returns.  The argument hist is
the result of the helper fetch (none models both a None return and the
empty-frame early exit together with the source's explicit emptiness
check).  The prices read from the frame are numpy float64 scalars, so
each division is an IEEE division (pyDiv): with a zero initial_price it
produces an infinite or NaN value and raises nothing, so the blanket
except around the body never fires on this path. -/
def calculate_returns (hist : Option (List ℚ)) (initial_price : ℚ) :
    Option PyFloat × Option PyFloat × Option PyFloat :=
  match hist with
  | none => (none, none, none)
  | some l =>
    if l.isEmpty then (none, none, none)
    else
      ( if 1 < l.length then some (pyDiv (l.getD 1 0 - initial_price) initial_price) else none,
        if 3 < l.length then some (pyDiv (l.getD 3 0 - initial_price) initial_price) else none,
        if 10 < l.length then some (pyDiv (l.getD 10 0 - initial_price) initial_price) else none )

/-- C3: direction correctness is decided exactly by the sign rule with the
1% neutral deadband, including the four concrete classifications given in
the spec. -/
theorem direction_correct_rule (r : ℚ) :
    (is_direction_correct sentPositive r = 1 ↔ 0 < r)
    ∧ (is_direction_correct sentNegative r = 1 ↔ r < 0)
    ∧ (is_direction_correct sentNeutral r = 1 ↔ |r| < 1/100)
    ∧ is_direction_correct sentPositive (3/100) = 1
    ∧ is_direction_correct sentPositive (-(1/100)) = 0
    ∧ is_direction_correct sentNeutral (5/1000) = 1
    ∧ is_direction_correct sentNeutral (2/100) = 0 := by
  have hpp : pyLower sentPositive = sentPositive := by decide
  have hpn : pyLower sentPositive ≠ sentNegative := by decide
  have hpu : pyLower sentPositive ≠ sentNeutral := by decide
  have hnp : pyLower sentNegative ≠ sentPositive := by decide
  have hnn : pyLower sentNegative = sentNegative := by decide
  have hnu : pyLower sentNegative ≠ sentNeutral := by decide
  have hup : pyLower sentNeutral ≠ sentPositive := by decide
  have hun : pyLower sentNeutral ≠ sentNegative := by decide
  have huu : pyLower sentNeutral = sentNeutral := by decide
  have hsp : sentPositive ≠ sentNegative := by decide
  have hsq : sentPositive ≠ sentNeutral := by decide
  have hsr : sentNegative ≠ sentNeutral := by decide
  have hrp : sentNegative ≠ sentPositive := by decide
  have hqp : sentNeutral ≠ sentPositive := by decide
  have hqr : sentNeutral ≠ sentNegative := by decide
  refine ⟨?_, ?_, ?_, ?_, ?_, ?_, ?_⟩ <;>
    simp only [is_direction_correct, hpp, hpn, hpu, hnp, hnn, hnu, hup, hun, huu,
      hsp, hsq, hsr, hrp, hqp, hqr, false_and, if_false, true_and] <;>
    norm_num [abs_lt, le_abs]

/-- C1: for a nonzero entry price, the horizon-h return (h in 1, 3, 10) is
present if and only if the series has strictly more than h bars, and when
present it is (series[h] - entry) / entry on the date-ascending Close
series. -/
theorem calculate_returns_horizons (l : List ℚ) (p : ℚ) (hp : p ≠ 0) :
    ((calculate_returns (some l) p).1.isSome ↔ 1 < l.length)
    ∧ ((calculate_returns (some l) p).2.1.isSome ↔ 3 < l.length)
    ∧ ((calculate_returns (some l) p).2.2.isSome ↔ 10 < l.length)
    ∧ (1 < l.length →
        (calculate_returns (some l) p).1 = some (PyFloat.fin ((l.getD 1 0 - p) / p)))
    ∧ (3 < l.length →
        (calculate_returns (some l) p).2.1 = some (PyFloat.fin ((l.getD 3 0 - p) / p)))
    ∧ (10 < l.length →
        (calculate_returns (some l) p).2.2 = some (PyFloat.fin ((l.getD 10 0 - p) / p))) := by
  have hdiv : ∀ x : ℚ, pyDiv x p = .fin (x / p) := fun x => by simp [pyDiv, hp]
  have key : calculate_returns (some l) p =
      ( if 1 < l.length then some (PyFloat.fin ((l.getD 1 0 - p) / p)) else none,
        if 3 < l.length then some (PyFloat.fin ((l.getD 3 0 - p) / p)) else none,
        if 10 < l.length then some (PyFloat.fin ((l.getD 10 0 - p) / p)) else none ) := by
    rcases l with _ | ⟨a, t⟩
    · simp [calculate_returns]
    · simp [calculate_returns, hdiv]
  rw [key]
  by_cases h1 : 1 < l.length <;> by_cases h3 : 3 < l.length <;> by_cases h10 : 10 < l.length <;>
    simp [h1, h3, h10]

/-- Witness for the C1 theorem at a concrete 4-bar series and entry 100. -/
theorem calculate_returns_horizons_witness :
    ((100 : ℚ) ≠ 0)
    ∧ (((calculate_returns (some [100, 101, 103, 99]) 100).1.isSome ↔ 1 < [100, 101, 103, 99].length)
        ∧ ((calculate_returns (some [100, 101, 103, 99]) 100).2.1.isSome ↔ 3 < [100, 101, 103, 99].length)
        ∧ ((calculate_returns (some [100, 101, 103, 99]) 100).2.2.isSome ↔ 10 < [100, 101, 103, 99].length)
        ∧ (1 < [100, 101, 103, 99].length →
            (calculate_returns (some [(100 : ℚ), 101, 103, 99]) 100).1
              = some (PyFloat.fin (([100, 101, 103, 99].getD 1 0 - 100) / 100)))
        ∧ (3 < [100, 101, 103, 99].length →
            (calculate_returns (some [(100 : ℚ), 101, 103, 99]) 100).2.1
              = some (PyFloat.fin (([100, 101, 103, 99].getD 3 0 - 100) / 100)))
        ∧ (10 < [100, 101, 103, 99].length →
            (calculate_returns (some [(100 : ℚ), 101, 103, 99]) 100).2.2
              = some (PyFloat.fin (([100, 101, 103, 99].getD 10 0 - 100) / 100)))) :=
  ⟨by norm_num, calculate_returns_horizons [100, 101, 103, 99] 100 (by norm_num)⟩

/-- C5 counterexample: on the two-bar series [100, 105] an entry price of
zero yields a PRESENT, positively infinite 1-day return — the numpy
float64 division by zero produces inf with only a RuntimeWarning, no
exception is raised, and no InvalidInput failure channel exists anywhere
in the source. -/
theorem zero_entry_produces_inf :
    calculate_returns (some [100, 105]) 0 = (some PyFloat.pinf, none, none)
    ∧ (calculate_returns (some [100, 105]) 0).1.isSome = true := by
  have h : calculate_returns (some [100, 105]) 0 = (some PyFloat.pinf, none, none) := by
    norm_num [calculate_returns, pyDiv]
  exact ⟨h, by rw [h]; rfl⟩

/-- C5 amended: a zero entry price does not fail fast — the source has no
InvalidInput error and the IEEE division raises nothing to be caught;
every horizon with enough bars still carries a present return, and that
value is never finite (an infinity, or NaN when the bar price equals the
zero entry), rather than the call failing or the returns being withheld. -/
theorem zero_entry_nonfinite_returns (l : List ℚ) :
    ((calculate_returns (some l) 0).1.isSome ↔ 1 < l.length)
    ∧ ((calculate_returns (some l) 0).2.1.isSome ↔ 3 < l.length)
    ∧ ((calculate_returns (some l) 0).2.2.isSome ↔ 10 < l.length)
    ∧ (∀ q : ℚ, (calculate_returns (some l) 0).1 ≠ some (PyFloat.fin q))
    ∧ (∀ q : ℚ, (calculate_returns (some l) 0).2.1 ≠ some (PyFloat.fin q))
    ∧ (∀ q : ℚ, (calculate_returns (some l) 0).2.2 ≠ some (PyFloat.fin q)) := by
  have hnf : ∀ x q : ℚ, pyDiv x 0 ≠ .fin q := by
    intro x q
    simp only [pyDiv, if_pos rfl]
    split_ifs <;> simp
  have key : calculate_returns (some l) 0 =
      ( if 1 < l.length then some (pyDiv (l.getD 1 0 - 0) 0) else none,
        if 3 < l.length then some (pyDiv (l.getD 3 0 - 0) 0) else none,
        if 10 < l.length then some (pyDiv (l.getD 10 0 - 0) 0) else none ) := by
    rcases l with _ | ⟨a, t⟩
    · simp [calculate_returns]
    · simp [calculate_returns]
  rw [key]
  by_cases h1 : 1 < l.length <;> by_cases h3 : 3 < l.length <;> by_cases h10 : 10 < l.length <;>
    simp [h1, h3, h10, hnf]

/- ===== GradeCalculator: kol_grade_system.calculate_kol_grade ===== -/

/-- Model of the Python built-in round at a whole-number target: round half
to even (banker's rounding), the documented semantics of round. -/
def roundHalfEven (x : ℚ) : ℤ :=
  if x - ⌊x⌋ < 1/2 then ⌊x⌋
  else if 1/2 < x - ⌊x⌋ then ⌊x⌋ + 1
  else if ⌊x⌋ % 2 = 0 then ⌊x⌋ else ⌊x⌋ + 1

/-- Model of round(x, 2): banker's rounding at two decimal places. -/
def round2 (x : ℚ) : ℚ := (roundHalfEven (100 * x) : ℚ) / 100

/-- Default weight w_acc = 0.5 of calculate_kol_grade. -/
def defaultWAcc : ℚ := 1/2

/-- Default weight w_sharpe = 0.3 of calculate_kol_grade. -/
def defaultWSharpe : ℚ := 3/10

/-- Default weight w_sample = 0.2 of calculate_kol_grade. -/
def defaultWSample : ℚ := 1/5

/-- Default sample_norm = 50 of calculate_kol_grade. -/
def defaultSampleNorm : ℤ := 50

/-- Embedding of kol_grade_system.calculate_kol_grade; the Python default
arguments are the four default constants above, passed explicitly here. -/
def calculate_kol_grade (accuracy sharpe : ℚ) (sample_num : ℤ)
    (w_acc w_sharpe w_sample : ℚ) (sample_norm : ℤ) : ℚ :=
  let sample_score := min ((sample_num : ℚ) / (sample_norm : ℚ)) 1
  let sharpe_score := min (max (sharpe / 2) 0) 1
  let grade := 100 * (w_acc * accuracy + w_sharpe * sharpe_score + w_sample * sample_score)
  round2 grade

theorem roundHalfEven_ge (x : ℚ) : ⌊x⌋ ≤ roundHalfEven x := by
  unfold roundHalfEven
  split_ifs <;> omega

theorem roundHalfEven_le (x : ℚ) : roundHalfEven x ≤ ⌊x⌋ + 1 := by
  unfold roundHalfEven
  split_ifs <;> omega

theorem roundHalfEven_mono {x y : ℚ} (h : x ≤ y) : roundHalfEven x ≤ roundHalfEven y := by
  rcases lt_or_eq_of_le (Int.floor_le_floor h) with hf | hf
  · calc roundHalfEven x ≤ ⌊x⌋ + 1 := roundHalfEven_le x
      _ ≤ ⌊y⌋ := by omega
      _ ≤ roundHalfEven y := roundHalfEven_ge y
  · have hxy : x - (⌊x⌋ : ℚ) ≤ y - (⌊x⌋ : ℚ) := by linarith
    unfold roundHalfEven
    rw [← hf]
    split_ifs <;> first | omega | linarith

theorem round2_mono {x y : ℚ} (h : x ≤ y) : round2 x ≤ round2 y := by
  unfold round2
  have hm : roundHalfEven (100 * x) ≤ roundHalfEven (100 * y) :=
    roundHalfEven_mono (by linarith)
  have hc : ((roundHalfEven (100 * x) : ℤ) : ℚ) ≤ ((roundHalfEven (100 * y) : ℤ) : ℚ) := by
    exact_mod_cast hm
  have h100 : (0 : ℚ) < 100 := by norm_num
  exact (div_le_div_iff_of_pos_right h100).mpr hc

/-- C4: the grade is monotonically non-decreasing in accuracy and in
sharpe (each for a nonnegative corresponding weight, as the defaults
are), equals exactly 100 at accuracy 1.0, sharpe 2.0, sample count 50
with the default weights, and is literally 100 * (w_acc * accuracy +
w_sharpe * clamp(sharpe / 2, 0, 1) + w_sample * min(sample_count /
sample_norm, 1)) rounded to two decimal places. -/
theorem grade_monotone_and_exact :
    (∀ a b s n w1 w2 w3 sn, 0 ≤ w1 → a ≤ b →
        calculate_kol_grade a s n w1 w2 w3 sn ≤ calculate_kol_grade b s n w1 w2 w3 sn)
    ∧ (∀ a s t n w1 w2 w3 sn, 0 ≤ w2 → s ≤ t →
        calculate_kol_grade a s n w1 w2 w3 sn ≤ calculate_kol_grade a t n w1 w2 w3 sn)
    ∧ calculate_kol_grade 1 2 50 defaultWAcc defaultWSharpe defaultWSample defaultSampleNorm = 100
    ∧ (∀ a s n w1 w2 w3 sn,
        calculate_kol_grade a s n w1 w2 w3 sn =
          round2 (100 * (w1 * a + w2 * min (max (s / 2) 0) 1 + w3 * min ((n : ℚ) / (sn : ℚ)) 1))) := by
  refine ⟨?_, ?_, ?_, ?_⟩
  · intro a b s n w1 w2 w3 sn hw hab
    apply round2_mono
    have : w1 * a ≤ w1 * b := mul_le_mul_of_nonneg_left hab hw
    linarith
  · intro a s t n w1 w2 w3 sn hw hst
    apply round2_mono
    have hsc : min (max (s / 2) 0) 1 ≤ min (max (t / 2) 0) 1 :=
      min_le_min (max_le_max (by linarith) le_rfl) le_rfl
    have : w2 * min (max (s / 2) 0) 1 ≤ w2 * min (max (t / 2) 0) 1 :=
      mul_le_mul_of_nonneg_left hsc hw
    linarith
  · norm_num [calculate_kol_grade, round2, roundHalfEven,
      defaultWAcc, defaultWSharpe, defaultWSample, defaultSampleNorm]
  · intro a s n w1 w2 w3 sn
    rfl

/-- Witness for the C4 theorem: both monotonicity conjuncts applied at the
default weights and concrete inputs. -/
theorem grade_monotone_and_exact_witness :
    ((0 : ℚ) ≤ defaultWAcc) ∧ ((8 : ℚ)/10 ≤ 9/10) ∧ ((0 : ℚ) ≤ defaultWSharpe) ∧ ((1 : ℚ) ≤ 3/2)
    ∧ calculate_kol_grade (8/10) 1 30 defaultWAcc defaultWSharpe defaultWSample defaultSampleNorm
        ≤ calculate_kol_grade (9/10) 1 30 defaultWAcc defaultWSharpe defaultWSample defaultSampleNorm
    ∧ calculate_kol_grade (8/10) 1 30 defaultWAcc defaultWSharpe defaultWSample defaultSampleNorm
        ≤ calculate_kol_grade (8/10) (3/2) 30 defaultWAcc defaultWSharpe defaultWSample defaultSampleNorm :=
  ⟨by norm_num [defaultWAcc], by norm_num, by norm_num [defaultWSharpe], by norm_num,
    grade_monotone_and_exact.1 _ _ _ _ _ _ _ _ (by norm_num [defaultWAcc]) (by norm_num),
    grade_monotone_and_exact.2.1 _ _ _ _ _ _ _ _ (by norm_num [defaultWSharpe]) (by norm_num)⟩

/- ===== PerformanceAggregator: kol_performance_metrics.calculate_period_metrics ===== -/

/-- Result record of calculate_period_metrics.  The volatility field is an
Option: none encodes the IEEE NaN that numpy std with ddof 1 produces on a
single observation (a 0.0 / 0.0), every other outcome is some real value. -/
structure PeriodMetrics where
  mean_return : ℝ
  volatility : Option ℝ
  sharpe_ratio : ℝ
  information_ratio : ℝ

/-- Embedding of kol_performance_metrics.calculate_period_metrics.  The
numpy calls are unfolded: np.mean is sum over length, np.std with ddof 1
is the square root of the squared deviations divided by N - 1, which for
N = 1 is 0.0 / 0.0, the IEEE NaN (modelled as none); a NaN compares false
against 0, so both ratio guards then take their zero branch. -/
noncomputable def calculate_period_metrics (returns : List ℝ) : PeriodMetrics :=
  if returns = [] then ⟨0, some 0, 0, 0⟩
  else
    let n : ℕ := returns.length
    let mean_return : ℝ := returns.sum / n
    let risk_free_rate : ℝ := 1/1000
    let volatility : Option ℝ :=
      if n = 1 then none
      else some (Real.sqrt (((returns.map (fun x => (x - mean_return) ^ 2)).sum) / ((n : ℝ) - 1)))
    let sharpe_ratio : ℝ :=
      match volatility with
      | some v => if 0 < v then (mean_return - risk_free_rate) / v else 0
      | none => 0
    let benchmark_return : ℝ := 1/100
    let information_ratio : ℝ :=
      match volatility with
      | some v => if 0 < v then (mean_return - benchmark_return) / v else 0
      | none => 0
    ⟨mean_return, volatility, sharpe_ratio, information_ratio⟩

/-- The Bessel-corrected sample standard deviation as the spec words it:
square root of the sum of squared deviations from the mean, divided by
N - 1. -/
noncomputable def sampleStdSpec (l : List ℝ) : ℝ :=
  Real.sqrt (((l.map (fun x => (x - l.sum / l.length) ^ 2)).sum) / ((l.length : ℝ) - 1))

/-- C2 counterexample: a one-observation return list yields a NaN
volatility (none in the model), not the zero the claim requires. -/
theorem single_sample_volatility_nan :
    (calculate_period_metrics [5/100]).volatility = none
    ∧ (calculate_period_metrics [5/100]).volatility ≠ some 0 := by
  constructor <;> simp [calculate_period_metrics]

/-- C2 amended: the empty list gives the all-zero record; exactly one
observation gives a NaN volatility with zero sharpe and information
ratios; at least two observations give the Bessel-corrected sample
standard deviation. -/
theorem period_metrics_cases (returns : List ℝ) :
    (returns = [] → calculate_period_metrics returns = ⟨0, some 0, 0, 0⟩)
    ∧ (returns.length = 1 →
        (calculate_period_metrics returns).volatility = none
        ∧ (calculate_period_metrics returns).sharpe_ratio = 0
        ∧ (calculate_period_metrics returns).information_ratio = 0)
    ∧ (2 ≤ returns.length →
        (calculate_period_metrics returns).volatility = some (sampleStdSpec returns)) := by
  refine ⟨?_, ?_, ?_⟩
  · intro h
    simp [calculate_period_metrics, h]
  · intro h
    have hne : returns ≠ [] := by
      intro hh
      rw [hh] at h
      simp at h
    simp [calculate_period_metrics, hne, h]
  · intro h
    have hne : returns ≠ [] := by
      intro hh
      rw [hh] at h
      simp at h
    have h1 : returns.length ≠ 1 := by omega
    simp [calculate_period_metrics, sampleStdSpec, hne, h1]

/-- Witness for the C2 amended theorem at the empty, one-element and
two-element lists. -/
theorem period_metrics_cases_witness :
    calculate_period_metrics ([] : List ℝ) = ⟨0, some 0, 0, 0⟩
    ∧ (calculate_period_metrics [(1 : ℝ)/10]).volatility = none
    ∧ (calculate_period_metrics [(1 : ℝ)/10, 3/10]).volatility = some (sampleStdSpec [(1 : ℝ)/10, 3/10]) :=
  ⟨(period_metrics_cases []).1 rfl,
    (period_metrics_cases [(1 : ℝ)/10]).2.1 (by simp) |>.1,
    (period_metrics_cases [(1 : ℝ)/10, 3/10]).2.2 (by simp)⟩

/- ===== PriceCache purge: YFinanceHelper.clear_cache ===== -/

/-- The on-disk cache as clear_cache sees it: whether the cache directory
exists, and the directory listing as (filename, modification time in
seconds) pairs. -/
structure CacheState where
  dirExists : Bool
  files : List (String × ℚ)

/-- Outcome of one clear_cache call: the new directory state, the removed
count the source prints (none when the missing-directory early return
fires and nothing is printed), and the Python return value of the call. -/
structure ClearCacheOutcome where
  state : CacheState
  printed : Option ℕ
  ret : Option ℕ

/-- Model of the Python str.endswith call: a suffix test on the character
sequence. -/
def pyEndsWith (s suffix : String) : Bool :=
  suffix.data.isSuffixOf s.data

/-- The removal test of YFinanceHelper.clear_cache for one directory
entry: a pickle file whose modification time lies before the cutoff. -/
def staleFile (cutoff : ℚ) (f : String × ℚ) : Bool :=
  pyEndsWith f.1 ".pkl" && decide (f.2 < cutoff)

/-- Embedding of YFinanceHelper.clear_cache.  The source computes cutoff =
now - older_than_days * 24 * 3600, deletes every .pkl entry older than
the cutoff while counting, prints the count and falls off the end of the
function, so its Python return value is None on every path. -/
def clear_cache (st : CacheState) (now : ℚ) (older_than_days : ℤ) : ClearCacheOutcome :=
  if !st.dirExists then ⟨st, none, none⟩
  else
    let cutoff := now - (older_than_days : ℚ) * 24 * 3600
    ⟨⟨st.dirExists, st.files.filter (fun f => !staleFile cutoff f)⟩,
      some (st.files.countP (staleFile cutoff)), none⟩

/-- C8 counterexample: purging a cache holding one ten-day-old entry with
a seven-day threshold removes the entry and prints count 1, but the call
returns None, not the count 1 the claim requires. -/
theorem clear_cache_returns_none :
    (clear_cache ⟨true, [( "a.pkl", 0)]⟩ (10 * 24 * 3600) 7).ret = none
    ∧ (clear_cache ⟨true, [( "a.pkl", 0)]⟩ (10 * 24 * 3600) 7).ret ≠ some 1
    ∧ (clear_cache ⟨true, [( "a.pkl", 0)]⟩ (10 * 24 * 3600) 7).printed = some 1
    ∧ (clear_cache ⟨true, [( "a.pkl", 0)]⟩ (10 * 24 * 3600) 7).state.files = [] := by
  have hsuf : pyEndsWith "a.pkl" ".pkl" = true := by decide
  refine ⟨rfl, by simp [clear_cache], ?_, ?_⟩ <;>
    norm_num [clear_cache, List.countP, List.countP.go, List.filter, staleFile, hsuf]

/-- C8 amended: when the cache directory exists, clear_cache keeps exactly
the entries that are not stale pickle files (so it removes exactly the
.pkl entries whose age strictly exceeds the threshold), prints the removed
count, and returns None rather than the count. -/
theorem clear_cache_purges_exactly (st : CacheState) (now : ℚ) (d : ℤ)
    (h : st.dirExists = true) :
    (∀ f, f ∈ (clear_cache st now d).state.files ↔
        f ∈ st.files ∧ ¬(pyEndsWith f.1 ".pkl" = true ∧ f.2 < now - (d : ℚ) * 24 * 3600))
    ∧ (clear_cache st now d).printed =
        some (st.files.countP (staleFile (now - (d : ℚ) * 24 * 3600)))
    ∧ (clear_cache st now d).ret = none := by
  have hcc : clear_cache st now d =
      ⟨⟨st.dirExists, st.files.filter (fun f => !staleFile (now - (d : ℚ) * 24 * 3600) f)⟩,
        some (st.files.countP (staleFile (now - (d : ℚ) * 24 * 3600))), none⟩ := by
    simp [clear_cache, h]
  rw [hcc]
  refine ⟨?_, rfl, rfl⟩
  intro f
  rw [List.mem_filter]
  constructor
  · rintro ⟨hf, hb⟩
    refine ⟨hf, fun hc => ?_⟩
    have hs : staleFile (now - (d : ℚ) * 24 * 3600) f = true := by
      simp [staleFile, hc.1, hc.2]
    rw [hs] at hb
    exact absurd hb (by simp)
  · rintro ⟨hf, hn⟩
    refine ⟨hf, ?_⟩
    rcases hb : staleFile (now - (d : ℚ) * 24 * 3600) f with _ | _
    · simp
    · exact absurd (by simpa [staleFile] using hb) hn

/-- Witness for the C8 amended theorem at a two-entry cache holding one
stale and one fresh pickle file. -/
theorem clear_cache_purges_exactly_witness :
    ((⟨true, [( "a.pkl", 0), ( "b.pkl", 9 * 24 * 3600)]⟩ : CacheState).dirExists = true)
    ∧ ((∀ f, f ∈ (clear_cache ⟨true, [( "a.pkl", 0), ( "b.pkl", 9 * 24 * 3600)]⟩ (10 * 24 * 3600) 7).state.files ↔
        f ∈ [( "a.pkl", (0 : ℚ)), ( "b.pkl", 9 * 24 * 3600)]
          ∧ ¬(pyEndsWith f.1 ".pkl" = true ∧ f.2 < 10 * 24 * 3600 - ((7 : ℤ) : ℚ) * 24 * 3600))
      ∧ (clear_cache ⟨true, [( "a.pkl", 0), ( "b.pkl", 9 * 24 * 3600)]⟩ (10 * 24 * 3600) 7).printed =
          some ([( "a.pkl", (0 : ℚ)), ( "b.pkl", 9 * 24 * 3600)].countP
            (staleFile (10 * 24 * 3600 - ((7 : ℤ) : ℚ) * 24 * 3600)))
      ∧ (clear_cache ⟨true, [( "a.pkl", 0), ( "b.pkl", 9 * 24 * 3600)]⟩ (10 * 24 * 3600) 7).ret = none) :=
  ⟨rfl, clear_cache_purges_exactly ⟨true, [( "a.pkl", 0), ( "b.pkl", 9 * 24 * 3600)]⟩ (10 * 24 * 3600) 7 rfl⟩

/- ===== ResilientFetcher: YFinanceHelper.get_stock_data ===== -/

/-- What one upstream yf.download call can come back with inside
get_stock_data: a DataFrame (possibly empty), an exception whose message
matches the rate-limit patterns, or any other exception. -/
inductive FetchOutcome where
  | series : List ℚ → FetchOutcome
  | rateLimited : FetchOutcome
  | otherError : FetchOutcome
deriving DecidableEq

/-- The retry loop of get_stock_data, indexed by the number of loop
iterations still available; the upstream oracle maps the attempt number
(the Python loop variable) to that call's outcome.  Returns the fetched
series (none when the loop ends without data) together with the number of
upstream calls made.  Mirrors the source: a non-empty frame returns at
once; an empty frame just falls through to the next attempt; a rate-limit
exception waits and retries; another exception retries unless this was
the final attempt, which breaks. -/
def fetchLoop (upstream : ℕ → FetchOutcome) (max_retries : ℕ) :
    ℕ → Option (List ℚ) × ℕ
  | 0 => (none, 0)
  | remaining + 1 =>
    match upstream (max_retries - (remaining + 1)) with
    | .series s =>
      if s.isEmpty then
        let r := fetchLoop upstream max_retries remaining
        (r.1, r.2 + 1)
      else (some s, 1)
    | .rateLimited =>
      let r := fetchLoop upstream max_retries remaining
      (r.1, r.2 + 1)
    | .otherError =>
      if 0 < remaining then
        let r := fetchLoop upstream max_retries remaining
        (r.1, r.2 + 1)
      else (none, 1)

/-- Embedding of YFinanceHelper.get_stock_data: a fresh cache hit returns
at once with zero upstream calls, otherwise the retry loop runs with
max_retries iterations available. -/
def get_stock_data (cache : Option (List ℚ)) (upstream : ℕ → FetchOutcome)
    (max_retries : ℕ) : Option (List ℚ) × ℕ :=
  match cache with
  | some d => (some d, 0)
  | none => fetchLoop upstream max_retries max_retries

/-- C6 counterexample: with no cache, three allowed attempts, an empty
frame on attempt 0 and a one-bar frame on attempt 1, get_stock_data makes
a second upstream call and returns that data — the empty success is
retried, not treated as a non-retriable absence. -/
theorem empty_series_is_retried :
    get_stock_data none (fun a => if a = 0 then .series [] else .series [5]) 3
      = (some [5], 2)
    ∧ (get_stock_data none (fun a => if a = 0 then .series [] else .series [5]) 3).2 ≠ 1 := by
  constructor
  · rfl
  · intro h
    rw [show get_stock_data none (fun a => if a = 0 then .series [] else .series [5]) 3
        = (some [5], 2) from rfl] at h
    simp at h

theorem fetchLoop_calls_pos (upstream : ℕ → FetchOutcome) (m r : ℕ) (h : 0 < r) :
    1 ≤ (fetchLoop upstream m r).2 := by
  rcases r with _ | r
  · omega
  · unfold fetchLoop
    rcases upstream (m - (r + 1)) with s | _ | _ <;> simp only
    · split <;> simp
    · simp
    · split <;> simp

/-- C6 amended: a successful-but-empty upstream response is a retriable
outcome: with at least two attempts allowed and an empty frame on attempt
0, a second upstream call is always made, and when every attempt comes
back empty the fetch returns absent only after consuming all max_retries
attempts. -/
theorem empty_series_retry_behavior (upstream : ℕ → FetchOutcome) (m : ℕ)
    (hall : ∀ a, a < m → upstream a = .series []) :
    get_stock_data none upstream m = (none, m)
    ∧ (2 ≤ m → 2 ≤ (get_stock_data none upstream m).2) := by
  have main : ∀ r, r ≤ m → (∀ a, a < m → upstream a = .series []) →
      fetchLoop upstream m r = (none, r) := by
    intro r
    induction r with
    | zero => intro _ _; rfl
    | succ k ih =>
      intro hle hup
      unfold fetchLoop
      have ha : upstream (m - (k + 1)) = .series [] := hup _ (by omega)
      rw [ha]
      simp only [List.isEmpty_nil, if_pos]
      rw [ih (by omega) hup]
  constructor
  · simpa [get_stock_data] using main m le_rfl hall
  · intro h2
    have := main m le_rfl hall
    simp [get_stock_data, this]
    omega

/-- Witness for the C6 amended theorem: two attempts, both empty. -/
theorem empty_series_retry_behavior_witness :
    (∀ a, a < 2 → (fun _ : ℕ => FetchOutcome.series []) a = .series [])
    ∧ (get_stock_data none (fun _ => .series []) 2 = (none, 2)
        ∧ (2 ≤ 2 → 2 ≤ (get_stock_data none (fun _ => FetchOutcome.series []) 2).2)) :=
  ⟨fun _ _ => rfl, empty_series_retry_behavior (fun _ => .series []) 2 (fun _ _ => rfl)⟩

/- ===== Persistence: KOLSentimentDB.insert_record_with_returns ===== -/

/-- One row of the kol_sentiment table as insert_record_with_returns
creates it. -/
structure SentimentRow where
  id : ℕ
  kol_name : String
  ticker : String
  sector : String
  sentiment : String
  confidence : ℚ
  initial_price : Option ℚ
  return_1d : Option ℚ
  return_3d : Option ℚ
  return_10d : Option ℚ

/-- Embedding of KOLSentimentDB.insert_record_with_returns.  priceLookup
is the get_stock_price result for the ticker at prediction time;
returnsCalc is calculate_returns at the resolved entry price.  The source
builds an ORM object but calls session.add and commit only inside the
"if initial_price is not None" block, so on a failed price lookup no row
reaches the database and the returned record.id attribute is still None;
the committed row otherwise receives the next surrogate id.  Returns the
new table contents and the Python return value. -/
def insert_record_with_returns (priceLookup : Option ℚ)
    (returnsCalc : ℚ → Option ℚ × Option ℚ × Option ℚ)
    (db : List SentimentRow) (kol_name ticker sector sentiment : String)
    (confidence : ℚ) : List SentimentRow × Option ℕ :=
  match priceLookup with
  | none => (db, none)
  | some p =>
    let r := returnsCalc p
    let newId := db.length + 1
    (db ++ [⟨newId, kol_name, ticker, sector, sentiment, confidence,
        some p, r.1, r.2.1, r.2.2⟩], some newId)

/-- C10: when the price lookup comes back absent, no row at all is
persisted (the table is unchanged) and the call returns None as the
record id rather than raising. -/
theorem insert_without_price_drops_event
    (returnsCalc : ℚ → Option ℚ × Option ℚ × Option ℚ)
    (db : List SentimentRow) (kol_name ticker sector sentiment : String)
    (confidence : ℚ) :
    insert_record_with_returns none returnsCalc db kol_name ticker sector
      sentiment confidence = (db, none) := rfl

/- ===== AccuracyScorer aggregates: kol_accuracy.get_kol_performance_stats ===== -/

/-- The fields of one KOLSentiment record that the accuracy aggregation
reads. -/
structure SentimentRecord where
  kol_name : String
  sentiment : String
  return_1d : Option ℚ
  return_3d : Option ℚ
  return_10d : Option ℚ

/-- The per-KOL entry of the kol_stats dictionary built by
get_kol_performance_stats. -/
structure KolStats where
  total_predictions : ℕ
  correct_1d : ℕ
  correct_3d : ℕ
  correct_10d : ℕ
  accuracy_1d : ℚ
  accuracy_3d : ℚ
  accuracy_10d : ℚ

/-- The fresh all-zero entry created on first sight of a KOL. -/
def emptyStats : KolStats := ⟨0, 0, 0, 0, 0, 0, 0⟩

/-- One iteration of the record loop of get_kol_performance_stats.  The
kol_stats dictionary is modelled extensionally as a partial map from KOL
name to entry.  A record with an absent 1-day return is skipped outright;
otherwise the record always counts toward total_predictions, and each
horizon whose return is present and direction-correct (the source tests
the 0/1 score for Python truthiness) bumps that horizon's correct
counter. -/
def statsStep (d : String → Option KolStats) (r : SentimentRecord) :
    String → Option KolStats :=
  match r.return_1d with
  | none => d
  | some ret1 =>
    let s0 := (d r.kol_name).getD emptyStats
    let s1 := { s0 with total_predictions := s0.total_predictions + 1 }
    let s2 := if is_direction_correct r.sentiment ret1 ≠ 0 then
        { s1 with correct_1d := s1.correct_1d + 1 } else s1
    let s3 := match r.return_3d with
      | some ret3 => if is_direction_correct r.sentiment ret3 ≠ 0 then
          { s2 with correct_3d := s2.correct_3d + 1 } else s2
      | none => s2
    let s4 := match r.return_10d with
      | some ret10 => if is_direction_correct r.sentiment ret10 ≠ 0 then
          { s3 with correct_10d := s3.correct_10d + 1 } else s3
      | none => s3
    fun k => if k = r.kol_name then some s4 else d k

/-- The percentage pass of get_kol_performance_stats: every horizon's
accuracy divides that horizon's correct count by total_predictions. -/
def finalizeStats (d : String → Option KolStats) : String → Option KolStats :=
  fun k => (d k).map (fun s =>
    if 0 < s.total_predictions then
      { s with
        accuracy_1d := (s.correct_1d : ℚ) / (s.total_predictions : ℚ),
        accuracy_3d := (s.correct_3d : ℚ) / (s.total_predictions : ℚ),
        accuracy_10d := (s.correct_10d : ℚ) / (s.total_predictions : ℚ) }
    else s)

/-- Embedding of kol_accuracy.get_kol_performance_stats. -/
def get_kol_performance_stats (records : List SentimentRecord) :
    String → Option KolStats :=
  finalizeStats (records.foldl statsStep (fun _ => none))

/-- Whether an optional return is present and direction-correct for the
given sentiment (Python truthiness of the 0/1 score). -/
def retCorrect (s : String) : Option ℚ → Bool
  | none => false
  | some v => decide (is_direction_correct s v ≠ 0)

/-- Events of the given KOL with a present 1-day return: the code's
denominator for every horizon. -/
def countTotal (k : String) (records : List SentimentRecord) : ℕ :=
  records.countP (fun r => decide (r.kol_name = k) && r.return_1d.isSome)

/-- Counted events of the given KOL that are 1-day correct. -/
def countC1 (k : String) (records : List SentimentRecord) : ℕ :=
  records.countP (fun r =>
    decide (r.kol_name = k) && r.return_1d.isSome && retCorrect r.sentiment r.return_1d)

/-- Counted events of the given KOL whose 3-day return is present and
correct (the record must also have a present 1-day return to be counted
at all). -/
def countC3 (k : String) (records : List SentimentRecord) : ℕ :=
  records.countP (fun r =>
    decide (r.kol_name = k) && r.return_1d.isSome && retCorrect r.sentiment r.return_3d)

/-- Counted events of the given KOL whose 10-day return is present and
correct. -/
def countC10 (k : String) (records : List SentimentRecord) : ℕ :=
  records.countP (fun r =>
    decide (r.kol_name = k) && r.return_1d.isSome && retCorrect r.sentiment r.return_10d)

/-- Adding a batch of counts onto a stats entry, accuracies untouched. -/
def addCounts (s : KolStats) (t c1 c3 c10 : ℕ) : KolStats :=
  { s with
    total_predictions := s.total_predictions + t,
    correct_1d := s.correct_1d + c1,
    correct_3d := s.correct_3d + c3,
    correct_10d := s.correct_10d + c10 }

theorem addCounts_addCounts (s : KolStats) (t1 a1 a3 a10 t2 b1 b3 b10 : ℕ) :
    addCounts (addCounts s t1 a1 a3 a10) t2 b1 b3 b10
      = addCounts s (t1 + t2) (a1 + b1) (a3 + b3) (a10 + b10) := by
  simp only [addCounts, KolStats.mk.injEq, and_true, true_and]
  omega

theorem statsStep_self (d : String → Option KolStats) (r : SentimentRecord)
    (ret1 : ℚ) (hr1 : r.return_1d = some ret1) :
    (statsStep d r) r.kol_name =
      some (addCounts ((d r.kol_name).getD emptyStats) 1
        (if retCorrect r.sentiment r.return_1d then 1 else 0)
        (if retCorrect r.sentiment r.return_3d then 1 else 0)
        (if retCorrect r.sentiment r.return_10d then 1 else 0)) := by
  simp only [statsStep, hr1, retCorrect]
  rcases hr3 : r.return_3d with _ | ret3 <;> rcases hr10 : r.return_10d with _ | ret10 <;>
    by_cases hc1 : is_direction_correct r.sentiment ret1 ≠ 0 <;>
    simp only [hc1, if_pos, if_neg, if_true, if_false, decide_eq_true_eq,
      decide_not, not_not, Bool.if_false_left, Bool.if_true_left] <;>
    split_ifs <;>
    simp_all [addCounts, KolStats.mk.injEq]

theorem statsStep_other (d : String → Option KolStats) (r : SentimentRecord)
    (k : String) (hk : r.kol_name ≠ k) :
    (statsStep d r) k = d k := by
  unfold statsStep
  rcases r.return_1d with _ | ret1
  · rfl
  · simp only
    rw [if_neg (fun hc => hk hc.symm)]

theorem countC1_le_countTotal (k : String) (records : List SentimentRecord) :
    countC1 k records ≤ countTotal k records := by
  apply List.countP_mono_left
  intro r _ h
  simp only [Bool.and_eq_true] at h ⊢
  exact h.1

theorem countC3_le_countTotal (k : String) (records : List SentimentRecord) :
    countC3 k records ≤ countTotal k records := by
  apply List.countP_mono_left
  intro r _ h
  simp only [Bool.and_eq_true] at h ⊢
  exact h.1

theorem countC10_le_countTotal (k : String) (records : List SentimentRecord) :
    countC10 k records ≤ countTotal k records := by
  apply List.countP_mono_left
  intro r _ h
  simp only [Bool.and_eq_true] at h ⊢
  exact h.1

theorem foldl_statsStep_char (records : List SentimentRecord)
    (d : String → Option KolStats) (k : String) :
    (records.foldl statsStep d) k =
      if countTotal k records = 0 then d k
      else some (addCounts ((d k).getD emptyStats) (countTotal k records)
        (countC1 k records) (countC3 k records) (countC10 k records)) := by
  induction records generalizing d with
  | nil => simp [countTotal]
  | cons r rest ih =>
    rw [List.foldl_cons, ih]
    rcases hr1 : r.return_1d with _ | ret1
    · have hstep : statsStep d r = d := by simp [statsStep, hr1]
      have ht : countTotal k (r :: rest) = countTotal k rest := by
        simp [countTotal, List.countP_cons, hr1]
      have h1 : countC1 k (r :: rest) = countC1 k rest := by
        simp [countC1, List.countP_cons, hr1]
      have h3 : countC3 k (r :: rest) = countC3 k rest := by
        simp [countC3, List.countP_cons, hr1]
      have h10 : countC10 k (r :: rest) = countC10 k rest := by
        simp [countC10, List.countP_cons, hr1]
      rw [hstep, ht, h1, h3, h10]
    · by_cases hk : r.kol_name = k
      · subst hk
        have hself := statsStep_self d r ret1 hr1
        have ht : countTotal r.kol_name (r :: rest) = countTotal r.kol_name rest + 1 := by
          simp [countTotal, List.countP_cons, hr1]
        have h1 : countC1 r.kol_name (r :: rest) = countC1 r.kol_name rest
            + (if retCorrect r.sentiment r.return_1d then 1 else 0) := by
          simp [countC1, List.countP_cons, hr1]
        have h3 : countC3 r.kol_name (r :: rest) = countC3 r.kol_name rest
            + (if retCorrect r.sentiment r.return_3d then 1 else 0) := by
          simp [countC3, List.countP_cons, hr1]
        have h10 : countC10 r.kol_name (r :: rest) = countC10 r.kol_name rest
            + (if retCorrect r.sentiment r.return_10d then 1 else 0) := by
          simp [countC10, List.countP_cons, hr1]
        rw [ht, h1, h3, h10, if_neg (Nat.succ_ne_zero (countTotal r.kol_name rest))]
        by_cases hz : countTotal r.kol_name rest = 0
        · have hz1 : countC1 r.kol_name rest = 0 :=
            Nat.le_zero.mp (hz ▸ countC1_le_countTotal r.kol_name rest)
          have hz3 : countC3 r.kol_name rest = 0 :=
            Nat.le_zero.mp (hz ▸ countC3_le_countTotal r.kol_name rest)
          have hz10 : countC10 r.kol_name rest = 0 :=
            Nat.le_zero.mp (hz ▸ countC10_le_countTotal r.kol_name rest)
          rw [if_pos hz, hself, hz, hz1, hz3, hz10]
          simp
        · rw [if_neg hz, hself]
          simp only [Option.getD_some]
          rw [addCounts_addCounts]
          simp only [addCounts, KolStats.mk.injEq, and_true, true_and,
            Option.some.injEq]
          omega
      · have hstep : (statsStep d r) k = d k := statsStep_other d r k hk
        have hkb : decide (r.kol_name = k) = false := by
          simp [hk]
        have ht : countTotal k (r :: rest) = countTotal k rest := by
          simp [countTotal, List.countP_cons, hkb]
        have h1 : countC1 k (r :: rest) = countC1 k rest := by
          simp [countC1, List.countP_cons, hkb]
        have h3 : countC3 k (r :: rest) = countC3 k rest := by
          simp [countC3, List.countP_cons, hkb]
        have h10 : countC10 k (r :: rest) = countC10 k rest := by
          simp [countC10, List.countP_cons, hkb]
        rw [hstep, ht, h1, h3, h10]

/-- Events of the given KOL with a present 3-day return: the denominator
the spec prescribes for the 3-day accuracy. -/
def present3dCount (k : String) (records : List SentimentRecord) : ℕ :=
  records.countP (fun r => decide (r.kol_name = k) && r.return_3d.isSome)

/-- Events of the given KOL whose 3-day return is present and correct. -/
def correct3dCount (k : String) (records : List SentimentRecord) : ℕ :=
  records.countP (fun r => decide (r.kol_name = k) && retCorrect r.sentiment r.return_3d)

/-- C7 amended: for every KOL appearing in the output, every horizon's
accuracy divides that horizon's correct count by total_predictions, the
count of that KOL's events with a present 1-day return — also for the 3-
and 10-day horizons, whose events with an absent return stay in the
denominator. -/
theorem accuracy_uses_one_day_denominator (records : List SentimentRecord)
    (k : String) (s : KolStats)
    (h : get_kol_performance_stats records k = some s) :
    0 < countTotal k records
    ∧ s.total_predictions = countTotal k records
    ∧ s.correct_3d = countC3 k records
    ∧ s.accuracy_1d = (countC1 k records : ℚ) / (countTotal k records : ℚ)
    ∧ s.accuracy_3d = (countC3 k records : ℚ) / (countTotal k records : ℚ)
    ∧ s.accuracy_10d = (countC10 k records : ℚ) / (countTotal k records : ℚ) := by
  unfold get_kol_performance_stats finalizeStats at h
  rw [foldl_statsStep_char] at h
  by_cases hz : countTotal k records = 0
  · rw [if_pos hz] at h
    simp at h
  · rw [if_neg hz] at h
    have hpos : 0 < countTotal k records := Nat.pos_of_ne_zero hz
    have hx : (addCounts (((fun _ : String => (none : Option KolStats)) k).getD emptyStats)
        (countTotal k records) (countC1 k records) (countC3 k records)
        (countC10 k records)).total_predictions = countTotal k records := by
      simp [addCounts, emptyStats]
    rw [Option.map_some'] at h
    rw [if_pos (by rw [hx]; exact hpos)] at h
    replace h := (Option.some.inj h).symm
    subst h
    refine ⟨hpos, ?_, ?_, ?_, ?_, ?_⟩ <;> simp [addCounts, emptyStats]

/-- The scored event of KOL kolA with all of the 1-day and 3-day returns
present (both direction-correct for its positive sentiment). -/
def cexEventFull : SentimentRecord := ⟨ "kolA", "positive", some 5, some 5, none⟩

/-- The scored event of KOL kolA with only the 1-day return present. -/
def cexEventPartial : SentimentRecord := ⟨ "kolA", "positive", some 5, none, none⟩

/-- C7 counterexample: of kolA's two counted events only one has a 3-day
return (and it is correct), so the claim requires a 3-day accuracy of
1/1 = 1; the code divides by the 1-day denominator 2 and reports 1/2. -/
theorem accuracy_three_day_denominator_cex :
    get_kol_performance_stats [cexEventFull, cexEventPartial] "kolA"
      = some ⟨2, 2, 1, 0, 1, 1/2, 0⟩
    ∧ present3dCount "kolA" [cexEventFull, cexEventPartial] = 1
    ∧ correct3dCount "kolA" [cexEventFull, cexEventPartial] = 1
    ∧ ((1 : ℚ)/2 ≠
        (correct3dCount "kolA" [cexEventFull, cexEventPartial] : ℚ)
          / (present3dCount "kolA" [cexEventFull, cexEventPartial] : ℚ)) := by
  have hpp : pyLower "positive" = sentPositive := by decide
  have hidc : is_direction_correct "positive" 5 = 1 := by
    rw [is_direction_correct, if_pos ⟨hpp, by norm_num⟩]
  have hp3 : present3dCount "kolA" [cexEventFull, cexEventPartial] = 1 := by
    simp [present3dCount, List.countP_cons, cexEventFull, cexEventPartial]
  have hc3 : correct3dCount "kolA" [cexEventFull, cexEventPartial] = 1 := by
    simp [correct3dCount, List.countP_cons, cexEventFull, cexEventPartial, retCorrect, hidc]
  refine ⟨?_, hp3, hc3, ?_⟩
  · norm_num [get_kol_performance_stats, finalizeStats, statsStep,
      cexEventFull, cexEventPartial, emptyStats, hidc]
  · rw [hp3, hc3]
    norm_num

/-- Witness for the C7 amended theorem at kolA's two concrete events. -/
theorem accuracy_uses_one_day_denominator_witness :
    0 < countTotal "kolA" [cexEventFull, cexEventPartial]
    ∧ (⟨2, 2, 1, 0, 1, 1/2, 0⟩ : KolStats).total_predictions
        = countTotal "kolA" [cexEventFull, cexEventPartial]
    ∧ (⟨2, 2, 1, 0, 1, 1/2, 0⟩ : KolStats).correct_3d
        = countC3 "kolA" [cexEventFull, cexEventPartial]
    ∧ (⟨2, 2, 1, 0, 1, 1/2, 0⟩ : KolStats).accuracy_1d
        = (countC1 "kolA" [cexEventFull, cexEventPartial] : ℚ)
          / (countTotal "kolA" [cexEventFull, cexEventPartial] : ℚ)
    ∧ (⟨2, 2, 1, 0, 1, 1/2, 0⟩ : KolStats).accuracy_3d
        = (countC3 "kolA" [cexEventFull, cexEventPartial] : ℚ)
          / (countTotal "kolA" [cexEventFull, cexEventPartial] : ℚ)
    ∧ (⟨2, 2, 1, 0, 1, 1/2, 0⟩ : KolStats).accuracy_10d
        = (countC10 "kolA" [cexEventFull, cexEventPartial] : ℚ)
          / (countTotal "kolA" [cexEventFull, cexEventPartial] : ℚ) :=
  accuracy_uses_one_day_denominator [cexEventFull, cexEventPartial] "kolA" _ (by
    have hpp : pyLower "positive" = sentPositive := by decide
    have hidc : is_direction_correct "positive" 5 = 1 := by
      rw [is_direction_correct, if_pos ⟨hpp, by norm_num⟩]
    norm_num [get_kol_performance_stats, finalizeStats, statsStep,
      cexEventFull, cexEventPartial, emptyStats, hidc])

/- ===== BatchAcquirer: YFinanceHelper._batch_download_bulk ===== -/

/-- Outcome of one bulk yf.download call over the uncached tickers of a
batch: an exception, or a grouped frame holding one Close series per
ticker column. -/
inductive BulkCall where
  | raises : BulkCall
  | frame : List (String × List ℚ) → BulkCall

/-- A grouped frame has no rows exactly when every column is empty. -/
def frameEmpty (f : List (String × List ℚ)) : Bool := f.all (fun c => c.2.isEmpty)

/-- The running state of _batch_download_bulk: the results dictionary
(modelled extensionally) and the log of tickers given to the per-ticker
get_stock_data fallback. -/
structure BatchState where
  results : String → Option (List ℚ)
  individualCalls : List String

/-- Dictionary assignment results[k] = v. -/
def dictSet (d : String → Option (List ℚ)) (k : String) (v : List ℚ) :
    String → Option (List ℚ) :=
  fun q => if q = k then some v else d q

/-- The cache-hit pass of a batch: each cached ticker's series goes
straight into results. -/
def cachedStep (res : String → Option (List ℚ)) (p : String × List ℚ) :
    String → Option (List ℚ) :=
  dictSet res p.1 p.2

/-- One step of the degraded per-ticker path run when the bulk call
raised: get_stock_data is consulted for the ticker (logged), and its data
is stored only when present. -/
def fallbackStep (fetchOne : String → Option (List ℚ)) (s : BatchState) (t : String) :
    BatchState :=
  match fetchOne t with
  | some d => ⟨dictSet s.results t d, s.individualCalls ++ [t]⟩
  | none => ⟨s.results, s.individualCalls ++ [t]⟩

/-- One step of the multi-ticker demultiplexing pass over a successful
bulk frame: a ticker missing from the columns or with an empty column is
dropped, otherwise its series is stored. -/
def demuxStep (f : List (String × List ℚ)) (s : BatchState) (t : String) : BatchState :=
  match f.lookup t with
  | some d => if d.isEmpty then s else ⟨dictSet s.results t d, s.individualCalls⟩
  | none => s

/-- Embedding of the body of _batch_download_bulk for one batch.  The
batch is split against the cache; when uncached tickers remain, one bulk
call covers them: on an exception the whole batch degrades to the
per-ticker path, on an empty frame nothing is stored, on a non-empty
frame a single uncached ticker receives the whole (flat) frame and
several uncached tickers are demultiplexed column by column. -/
def processBatch (cache : String → Option (List ℚ)) (bulk : List String → BulkCall)
    (fetchOne : String → Option (List ℚ)) (st : BatchState) (batch : List String) :
    BatchState :=
  let cachedPairs := batch.filterMap (fun t => (cache t).map (fun d => (t, d)))
  let uncached := batch.filter (fun t => (cache t).isNone)
  let st1 : BatchState := ⟨cachedPairs.foldl cachedStep st.results, st.individualCalls⟩
  if uncached.isEmpty then st1
  else
    match bulk uncached with
    | .raises => uncached.foldl (fallbackStep fetchOne) st1
    | .frame f =>
      if frameEmpty f then st1
      else if uncached.length = 1 then
        ⟨dictSet st1.results (uncached.headD "") ((f.map Prod.snd).flatten), st1.individualCalls⟩
      else uncached.foldl (demuxStep f) st1

/-- The chunking of the ticker list into consecutive batches of size
batch_size (the Python range loop; batch_size is positive there). -/
def chunkListAux (bs : ℕ) : ℕ → List String → List (List String)
  | 0, _ => []
  | _, [] => []
  | fuel + 1, l => l.take bs :: chunkListAux bs fuel (l.drop bs)

/-- The batches _batch_download_bulk iterates over. -/
def chunkList (bs : ℕ) (l : List String) : List (List String) :=
  chunkListAux bs l.length l

/-- Embedding of YFinanceHelper._batch_download_bulk over the whole
ticker list. -/
def batch_download_bulk (cache : String → Option (List ℚ)) (bulk : List String → BulkCall)
    (fetchOne : String → Option (List ℚ)) (tickers : List String) (batch_size : ℕ) :
    BatchState :=
  (chunkList batch_size tickers).foldl (processBatch cache bulk fetchOne) ⟨fun _ => none, []⟩

theorem dictSet_mono (d : String → Option (List ℚ)) (k : String) (v : List ℚ)
    (q : String) (h : (d q).isSome) : ((dictSet d k v) q).isSome := by
  unfold dictSet
  split <;> simp [h]

theorem foldl_cachedStep_mono (l : List (String × List ℚ))
    (res : String → Option (List ℚ)) (q : String) (h : (res q).isSome) :
    ((l.foldl cachedStep res) q).isSome := by
  induction l generalizing res with
  | nil => exact h
  | cons p rest ih => exact ih _ (dictSet_mono _ _ _ _ h)

theorem foldl_fallback_calls (fetchOne : String → Option (List ℚ))
    (l : List String) (s : BatchState) :
    (l.foldl (fallbackStep fetchOne) s).individualCalls = s.individualCalls ++ l := by
  induction l generalizing s with
  | nil => simp
  | cons t rest ih =>
    rw [List.foldl_cons]
    rcases hf : fetchOne t with _ | d <;>
      simp [fallbackStep, hf, ih]

theorem foldl_fallback_results_mono (fetchOne : String → Option (List ℚ))
    (l : List String) (s : BatchState) (q : String) (h : (s.results q).isSome) :
    ((l.foldl (fallbackStep fetchOne) s).results q).isSome := by
  induction l generalizing s with
  | nil => exact h
  | cons t rest ih =>
    rw [List.foldl_cons]
    rcases hf : fetchOne t with _ | d
    · exact ih _ (by simpa [fallbackStep, hf] using h)
    · exact ih _ (by simpa [fallbackStep, hf] using dictSet_mono s.results t d q h)

theorem foldl_fallback_results_present (fetchOne : String → Option (List ℚ))
    (l : List String) (s : BatchState) (t : String) (ht : t ∈ l)
    (d : List ℚ) (hf : fetchOne t = some d) :
    ((l.foldl (fallbackStep fetchOne) s).results t).isSome := by
  induction l generalizing s with
  | nil => cases ht
  | cons a rest ih =>
    rw [List.foldl_cons]
    rcases List.mem_cons.mp ht with heq | hmem
    · subst heq
      rcases hfa : fetchOne t with _ | e
      · rw [hfa] at hf
        cases hf
      · apply foldl_fallback_results_mono
        simp [fallbackStep, hfa, dictSet]
    · exact ih _ hmem

theorem foldl_demux_calls (f : List (String × List ℚ)) (l : List String) (s : BatchState) :
    (l.foldl (demuxStep f) s).individualCalls = s.individualCalls := by
  induction l generalizing s with
  | nil => rfl
  | cons t rest ih =>
    rw [List.foldl_cons]
    rcases hl : f.lookup t with _ | d
    · rw [show demuxStep f s t = s by simp [demuxStep, hl], ih]
    · by_cases he : d.isEmpty
      · rw [show demuxStep f s t = s by simp [demuxStep, hl, he], ih]
      · rw [show demuxStep f s t = ⟨dictSet s.results t d, s.individualCalls⟩ by
          simp [demuxStep, hl, he], ih]

theorem foldl_demux_results_mono (f : List (String × List ℚ)) (l : List String)
    (s : BatchState) (q : String) (h : (s.results q).isSome) :
    ((l.foldl (demuxStep f) s).results q).isSome := by
  induction l generalizing s with
  | nil => exact h
  | cons t rest ih =>
    rw [List.foldl_cons]
    rcases hl : f.lookup t with _ | d
    · exact ih _ (by simpa [demuxStep, hl] using h)
    · by_cases he : d.isEmpty
      · exact ih _ (by simpa [demuxStep, hl, he] using h)
      · exact ih _ (by
          simp only [demuxStep, hl, he, Bool.false_eq_true, if_false]
          exact dictSet_mono s.results t d q h)

theorem processBatch_calls_mono (cache : String → Option (List ℚ))
    (bulk : List String → BulkCall) (fetchOne : String → Option (List ℚ))
    (st : BatchState) (batch : List String) :
    ∃ l, (processBatch cache bulk fetchOne st batch).individualCalls
      = st.individualCalls ++ l := by
  unfold processBatch
  by_cases hu : (batch.filter (fun t => (cache t).isNone)).isEmpty
  · exact ⟨[], by simp [hu]⟩
  · simp only [hu, Bool.false_eq_true, if_false]
    rcases hb : bulk (batch.filter (fun t => (cache t).isNone)) with _ | f
    · exact ⟨_, foldl_fallback_calls fetchOne _ _⟩
    · by_cases he : frameEmpty f
      · exact ⟨[], by simp [he]⟩
      · by_cases h1 : (batch.filter (fun t => (cache t).isNone)).length = 1
        · exact ⟨[], by simp [he, h1]⟩
        · refine ⟨[], ?_⟩
          simp only [he, h1, Bool.false_eq_true, if_false, List.append_nil]
          exact foldl_demux_calls f _ _

theorem processBatch_results_mono (cache : String → Option (List ℚ))
    (bulk : List String → BulkCall) (fetchOne : String → Option (List ℚ))
    (st : BatchState) (batch : List String) (q : String)
    (h : (st.results q).isSome) :
    ((processBatch cache bulk fetchOne st batch).results q).isSome := by
  unfold processBatch
  have h1 : ((batch.filterMap (fun t => (cache t).map (fun d => (t, d)))).foldl
      cachedStep st.results q).isSome := foldl_cachedStep_mono _ _ _ h
  by_cases hu : (batch.filter (fun t => (cache t).isNone)).isEmpty
  · simpa [hu] using h1
  · simp only [hu, Bool.false_eq_true, if_false]
    rcases hb : bulk (batch.filter (fun t => (cache t).isNone)) with _ | f
    · exact foldl_fallback_results_mono fetchOne _ _ _ h1
    · by_cases he : frameEmpty f
      · simpa [he] using h1
      · by_cases hl : (batch.filter (fun t => (cache t).isNone)).length = 1
        · simp only [he, hl, Bool.false_eq_true, if_false, if_true, if_pos]
          exact dictSet_mono _ _ _ _ h1
        · simp only [he, hl, Bool.false_eq_true, if_false]
          exact foldl_demux_results_mono f _ _ _ h1

theorem processBatch_raises (cache : String → Option (List ℚ))
    (bulk : List String → BulkCall) (fetchOne : String → Option (List ℚ))
    (st : BatchState) (batch : List String)
    (hfail : bulk (batch.filter (fun t => (cache t).isNone)) = .raises)
    (t : String) (ht : t ∈ batch) (hmiss : cache t = none) :
    t ∈ (processBatch cache bulk fetchOne st batch).individualCalls
    ∧ (∀ d, fetchOne t = some d →
        ((processBatch cache bulk fetchOne st batch).results t).isSome) := by
  have htu : t ∈ batch.filter (fun t => (cache t).isNone) :=
    List.mem_filter.mpr ⟨ht, by simp [hmiss]⟩
  have hne : (batch.filter (fun t => (cache t).isNone)).isEmpty = false := by
    rcases hE : (batch.filter (fun t => (cache t).isNone)).isEmpty with _ | _
    · rfl
    · rw [List.isEmpty_iff.mp hE] at htu
      cases htu
  unfold processBatch
  simp only [hne, Bool.false_eq_true, if_false, hfail]
  constructor
  · rw [foldl_fallback_calls]
    exact List.mem_append.mpr (Or.inr htu)
  · intro d hd
    exact foldl_fallback_results_present fetchOne _ _ t htu d hd

theorem foldl_processBatch_calls_mono (cache : String → Option (List ℚ))
    (bulk : List String → BulkCall) (fetchOne : String → Option (List ℚ))
    (chunks : List (List String)) (st : BatchState) :
    ∃ l, (chunks.foldl (processBatch cache bulk fetchOne) st).individualCalls
      = st.individualCalls ++ l := by
  induction chunks generalizing st with
  | nil => exact ⟨[], by simp⟩
  | cons c rest ih =>
    rw [List.foldl_cons]
    obtain ⟨l1, h1⟩ := processBatch_calls_mono cache bulk fetchOne st c
    obtain ⟨l2, h2⟩ := ih (processBatch cache bulk fetchOne st c)
    exact ⟨l1 ++ l2, by rw [h2, h1, List.append_assoc]⟩

theorem foldl_processBatch_results_mono (cache : String → Option (List ℚ))
    (bulk : List String → BulkCall) (fetchOne : String → Option (List ℚ))
    (chunks : List (List String)) (st : BatchState) (q : String)
    (h : (st.results q).isSome) :
    ((chunks.foldl (processBatch cache bulk fetchOne) st).results q).isSome := by
  induction chunks generalizing st with
  | nil => exact h
  | cons c rest ih => exact ih _ (processBatch_results_mono _ _ _ _ _ _ h)

/-- C9: in every batch whose bulk call raises, every cache-miss ticker of
the batch is handed to the per-ticker get_stock_data fallback (it appears
in the individual-call log), and whenever that per-ticker fetch can
resolve the ticker, the ticker ends up in the result map — no ticker is
dropped merely because the bulk call failed. -/
theorem bulk_failure_falls_back_per_ticker (cache : String → Option (List ℚ))
    (bulk : List String → BulkCall) (fetchOne : String → Option (List ℚ))
    (tickers : List String) (batch_size : ℕ) (c : List String)
    (hc : c ∈ chunkList batch_size tickers)
    (hfail : bulk (c.filter (fun t => (cache t).isNone)) = .raises) :
    ∀ t ∈ c, cache t = none →
      t ∈ (batch_download_bulk cache bulk fetchOne tickers batch_size).individualCalls
      ∧ (∀ d, fetchOne t = some d →
          ((batch_download_bulk cache bulk fetchOne tickers batch_size).results t).isSome) := by
  have general : ∀ (chunks : List (List String)) (st : BatchState), c ∈ chunks →
      ∀ t ∈ c, cache t = none →
        t ∈ (chunks.foldl (processBatch cache bulk fetchOne) st).individualCalls
        ∧ (∀ d, fetchOne t = some d →
            ((chunks.foldl (processBatch cache bulk fetchOne) st).results t).isSome) := by
    intro chunks
    induction chunks with
    | nil =>
      intro st hmem
      cases hmem
    | cons c0 rest ih =>
      intro st hmem t ht hmiss
      rw [List.foldl_cons]
      rcases List.mem_cons.mp hmem with heq | hmem2
      · subst heq
        have hpb := processBatch_raises cache bulk fetchOne st c hfail t ht hmiss
        constructor
        · obtain ⟨l2, h2⟩ := foldl_processBatch_calls_mono cache bulk fetchOne rest
            (processBatch cache bulk fetchOne st c)
          rw [h2]
          exact List.mem_append.mpr (Or.inl hpb.1)
        · intro d hd
          exact foldl_processBatch_results_mono cache bulk fetchOne rest _ t (hpb.2 d hd)
      · exact ih _ hmem2 t ht hmiss
  exact general (chunkList batch_size tickers) ⟨fun _ => none, []⟩ hc

/-- Cache oracle of the C9 witness: only AAPL is cached. -/
def wCache : String → Option (List ℚ) := fun t => if t = "AAPL" then some [1] else none

/-- Bulk oracle of the C9 witness: the bulk call always raises. -/
def wBulk : List String → BulkCall := fun _ => .raises

/-- Per-ticker oracle of the C9 witness: only MSFT resolves. -/
def wFetch : String → Option (List ℚ) := fun t => if t = "MSFT" then some [2] else none

/-- Ticker list of the C9 witness. -/
def wTickers : List String := [ "AAPL", "MSFT", "TSLA"]

/-- Witness for the C9 theorem: a one-batch run whose bulk call raises;
the cache-miss ticker MSFT is individually attempted and resolved. -/
theorem bulk_failure_falls_back_per_ticker_witness :
    wTickers ∈ chunkList 10 wTickers
    ∧ wBulk (wTickers.filter (fun t => (wCache t).isNone)) = .raises
    ∧ "MSFT" ∈ wTickers
    ∧ wCache "MSFT" = none
    ∧ "MSFT" ∈ (batch_download_bulk wCache wBulk wFetch wTickers 10).individualCalls
    ∧ (∀ d, wFetch "MSFT" = some d →
        ((batch_download_bulk wCache wBulk wFetch wTickers 10).results "MSFT").isSome) := by
  have hc : wTickers ∈ chunkList 10 wTickers := by decide
  have hfail : wBulk (wTickers.filter (fun t => (wCache t).isNone)) = .raises := rfl
  have hmem : "MSFT" ∈ wTickers := by decide
  have hmiss : wCache "MSFT" = none := by decide
  have h := bulk_failure_falls_back_per_ticker wCache wBulk wFetch wTickers 10
    wTickers hc hfail "MSFT" hmem hmiss
  exact ⟨hc, hfail, hmem, hmiss, h.1, h.2⟩
